import Mathlib

/-!
Verification of the jobhunt pipeline and frontend.

The scraping pipeline (scraper/scrape_jobs.py) is referenced by the repository
README but its code is not present in the checkout; the pipeline definitions
below are therefore modelled from the specification (sections 3, 4.3, 4.4, 4.5
and 6 of spec.md).  The frontend definitions (applications hook, visa filter,
client columns) are translated from frontend/src/App.jsx and the
useApplications hook source.
-/

namespace JobHunt

/-! ## Data model of the merge step -/

/-- Modelled from the spec: a ClassifiedPosting (spec section 3) is a RawPosting
plus role category, visa-sponsorship flag and experience pass flag; records
that fail classification are dropped before this point. -/
structure ClassifiedPosting where
  title : String
  company : String
  location : String
  snippet : String
  postedAt : String
  postUrl : String
  source : String
  role : String
  expText : String
  visa : Bool
deriving DecidableEq, Repr

/-- Modelled from the spec: the stable identifier is derived deterministically
from company + title + source URL (spec section 3, DatasetRecord). -/
def postingIdent (p : ClassifiedPosting) : String :=
  p.company ++ "|" ++ p.title ++ "|" ++ p.postUrl

/-- Modelled from the spec: a persisted DatasetRecord (spec section 3): all
ClassifiedPosting fields plus identifier, first-scraped and last-seen
timestamps. -/
structure DatasetRecord where
  ident : String
  title : String
  company : String
  location : String
  role : String
  postUrl : String
  postedAt : String
  expText : String
  visa : Bool
  snippet : String
  firstScraped : Nat
  lastSeen : Nat
deriving DecidableEq, Repr

/-- Modelled from the spec: on an identifier match the merge updates the
last-seen timestamp and overwrites the mutable fields (location, snippet,
visa flag) with the latest values, preserving everything else
(spec section 4.4). -/
def updateRecord (p : ClassifiedPosting) (now : Nat) (r : DatasetRecord) :
    DatasetRecord :=
  if r.ident = postingIdent p then
    { r with location := p.location, snippet := p.snippet, visa := p.visa,
             lastSeen := now }
  else r

/-- Modelled from the spec: a freshly inserted DatasetRecord has
first-scraped = last-seen = current run time (spec section 4.4). -/
def newRecord (p : ClassifiedPosting) (now : Nat) : DatasetRecord :=
  { ident := postingIdent p, title := p.title, company := p.company,
    location := p.location, role := p.role, postUrl := p.postUrl,
    postedAt := p.postedAt, expText := p.expText, visa := p.visa,
    snippet := p.snippet, firstScraped := now, lastSeen := now }

/-- Whether some record of the dataset carries identifier k. -/
def hasIdent (ds : List DatasetRecord) (k : String) : Bool :=
  ds.any (fun r => r.ident = k)

/-- Modelled from the spec: merging one new classified posting into the
dataset — update the matching record if the identifier already exists,
otherwise append a new record (spec section 4.4). -/
def mergeOne (ds : List DatasetRecord) (p : ClassifiedPosting) (now : Nat) :
    List DatasetRecord :=
  if hasIdent ds (postingIdent p) then ds.map (updateRecord p now)
  else ds ++ [newRecord p now]

/-- Modelled from the spec: merging a whole batch of the current run's
classified postings into the prior dataset (spec section 4.4). -/
def mergeBatch (ds : List DatasetRecord) (batch : List ClassifiedPosting)
    (now : Nat) : List DatasetRecord :=
  batch.foldl (fun acc p => mergeOne acc p now) ds

/-- Modelled from the spec: a sequence of runs, each merging its batch at its
own run time (spec section 3, Dataset lifecycle). -/
def mergeRuns (ds : List DatasetRecord)
    (runs : List (List ClassifiedPosting × Nat)) : List DatasetRecord :=
  runs.foldl (fun acc r => mergeBatch acc r.1 r.2) ds

/-- The identifiers of a dataset, in order. -/
def idents (ds : List DatasetRecord) : List String :=
  ds.map (fun r => r.ident)

/-- Erase the last-seen timestamp, for comparing datasets up to last-seen. -/
def stripLastSeen (r : DatasetRecord) : DatasetRecord :=
  { r with lastSeen := 0 }

/-- A dataset with all last-seen timestamps erased. -/
def stripAll (ds : List DatasetRecord) : List DatasetRecord :=
  ds.map stripLastSeen

/-! ## Basic lemmas about the merge -/

theorem updateRecord_ident (p : ClassifiedPosting) (now : Nat)
    (r : DatasetRecord) : (updateRecord p now r).ident = r.ident := by
  unfold updateRecord
  by_cases h : r.ident = postingIdent p <;> simp [h]

theorem hasIdent_map_updateRecord (ds : List DatasetRecord)
    (p : ClassifiedPosting) (now : Nat) (k : String) :
    hasIdent (ds.map (updateRecord p now)) k = hasIdent ds k := by
  unfold hasIdent
  induction ds with
  | nil => rfl
  | cons r rest ih =>
    simp only [List.map_cons, List.any_cons, updateRecord_ident]
    rw [ih]

theorem idents_mergeOne_of_hasIdent (ds : List DatasetRecord)
    (p : ClassifiedPosting) (now : Nat)
    (h : hasIdent ds (postingIdent p) = true) :
    idents (mergeOne ds p now) = idents ds := by
  unfold mergeOne idents
  rw [if_pos h, List.map_map]
  apply List.map_congr_left
  intro r _
  exact updateRecord_ident p now r

theorem idents_mergeOne_of_not_hasIdent (ds : List DatasetRecord)
    (p : ClassifiedPosting) (now : Nat)
    (h : hasIdent ds (postingIdent p) = false) :
    idents (mergeOne ds p now) = idents ds ++ [postingIdent p] := by
  unfold mergeOne idents
  rw [if_neg (by simp [h]), List.map_append]
  rfl

theorem not_mem_idents_of_not_hasIdent (ds : List DatasetRecord) (k : String)
    (h : hasIdent ds k = false) : k ∉ idents ds := by
  unfold hasIdent at h
  unfold idents
  simp only [List.any_eq_false, decide_eq_true_eq] at h
  simp only [List.mem_map]
  rintro ⟨r, hr, hk⟩
  exact h r hr hk

theorem nodup_idents_mergeOne (ds : List DatasetRecord)
    (p : ClassifiedPosting) (now : Nat) (h : (idents ds).Nodup) :
    (idents (mergeOne ds p now)).Nodup := by
  cases hc : hasIdent ds (postingIdent p) with
  | true => rw [idents_mergeOne_of_hasIdent ds p now hc]; exact h
  | false =>
    rw [idents_mergeOne_of_not_hasIdent ds p now hc]
    have hnm := not_mem_idents_of_not_hasIdent ds (postingIdent p) hc
    simp [List.nodup_append, h, hnm]

theorem nodup_idents_mergeBatch (batch : List ClassifiedPosting)
    (ds : List DatasetRecord) (now : Nat) (h : (idents ds).Nodup) :
    (idents (mergeBatch ds batch now)).Nodup := by
  induction batch generalizing ds with
  | nil => exact h
  | cons p rest ih =>
    exact ih (mergeOne ds p now) (nodup_idents_mergeOne ds p now h)

/-! ## Idempotence machinery -/

/-- Overwrite the mutable fields (location, snippet, visa flag) from a posting
when the identifier matches; the timestamp-free core of updateRecord. -/
def applyMut (p : ClassifiedPosting) (r : DatasetRecord) : DatasetRecord :=
  if r.ident = postingIdent p then
    { r with location := p.location, snippet := p.snippet, visa := p.visa }
  else r

/-- Apply the whole batch of updates to one record, in batch order. -/
def chainUpdate (batch : List ClassifiedPosting) (now : Nat)
    (r : DatasetRecord) : DatasetRecord :=
  batch.foldl (fun r p => updateRecord p now r) r

/-- Apply the whole batch of mutable-field overwrites to one record. -/
def chainMut (batch : List ClassifiedPosting) (r : DatasetRecord) :
    DatasetRecord :=
  batch.foldl (fun r p => applyMut p r) r

theorem applyMut_ident (p : ClassifiedPosting) (r : DatasetRecord) :
    (applyMut p r).ident = r.ident := by
  unfold applyMut
  by_cases h : r.ident = postingIdent p <;> simp [h]

theorem applyMut_eq_self_of_ne (p : ClassifiedPosting) (r : DatasetRecord)
    (h : r.ident ≠ postingIdent p) : applyMut p r = r := by
  unfold applyMut
  rw [if_neg h]

theorem applyMut_eq_of_eq (p : ClassifiedPosting) (r : DatasetRecord)
    (h : r.ident = postingIdent p) :
    applyMut p r
      = { r with location := p.location, snippet := p.snippet, visa := p.visa } := by
  unfold applyMut
  rw [if_pos h]

theorem updateRecord_eq_self_of_ne (p : ClassifiedPosting) (now : Nat)
    (r : DatasetRecord) (h : r.ident ≠ postingIdent p) :
    updateRecord p now r = r := by
  unfold updateRecord
  rw [if_neg h]

theorem stripLastSeen_ident (r : DatasetRecord) :
    (stripLastSeen r).ident = r.ident := rfl

theorem stripLastSeen_updateRecord (p : ClassifiedPosting) (now : Nat)
    (r : DatasetRecord) :
    stripLastSeen (updateRecord p now r) = applyMut p (stripLastSeen r) := by
  unfold updateRecord applyMut stripLastSeen
  by_cases h : r.ident = postingIdent p <;> simp [h]

theorem stripLastSeen_chainUpdate (batch : List ClassifiedPosting) (now : Nat)
    (r : DatasetRecord) :
    stripLastSeen (chainUpdate batch now r) = chainMut batch (stripLastSeen r) := by
  induction batch generalizing r with
  | nil => rfl
  | cons p rest ih =>
    show stripLastSeen (chainUpdate rest now (updateRecord p now r))
        = chainMut rest (applyMut p (stripLastSeen r))
    rw [ih, stripLastSeen_updateRecord]

theorem hasIdent_mergeOne_self (ds : List DatasetRecord)
    (p : ClassifiedPosting) (now : Nat) :
    hasIdent (mergeOne ds p now) (postingIdent p) = true := by
  unfold mergeOne
  by_cases hc : hasIdent ds (postingIdent p) = true
  · rw [if_pos hc, hasIdent_map_updateRecord]; exact hc
  · rw [if_neg hc]
    unfold hasIdent newRecord
    simp

theorem hasIdent_mergeOne_mono (ds : List DatasetRecord)
    (p : ClassifiedPosting) (now : Nat) (k : String)
    (h : hasIdent ds k = true) : hasIdent (mergeOne ds p now) k = true := by
  unfold mergeOne
  by_cases hc : hasIdent ds (postingIdent p) = true
  · rw [if_pos hc, hasIdent_map_updateRecord]; exact h
  · rw [if_neg hc]
    unfold hasIdent at h ⊢
    simp only [List.any_append, h, Bool.true_or]

theorem hasIdent_mergeBatch_mono (batch : List ClassifiedPosting)
    (ds : List DatasetRecord) (now : Nat) (k : String)
    (h : hasIdent ds k = true) : hasIdent (mergeBatch ds batch now) k = true := by
  induction batch generalizing ds with
  | nil => exact h
  | cons p rest ih => exact ih (mergeOne ds p now) (hasIdent_mergeOne_mono ds p now k h)

theorem hasIdent_mergeBatch_of_mem (batch : List ClassifiedPosting)
    (ds : List DatasetRecord) (now : Nat) (p : ClassifiedPosting)
    (hp : p ∈ batch) :
    hasIdent (mergeBatch ds batch now) (postingIdent p) = true := by
  induction batch generalizing ds with
  | nil => cases hp
  | cons q rest ih =>
    cases List.mem_cons.mp hp with
    | inl he =>
      subst he
      exact hasIdent_mergeBatch_mono rest (mergeOne ds p now) now
        (postingIdent p) (hasIdent_mergeOne_self ds p now)
    | inr hm => exact ih (mergeOne ds q now) hm

theorem mergeBatch_eq_map_of_hasIdent (batch : List ClassifiedPosting)
    (ds : List DatasetRecord) (now : Nat)
    (h : ∀ p ∈ batch, hasIdent ds (postingIdent p) = true) :
    mergeBatch ds batch now = ds.map (chainUpdate batch now) := by
  induction batch generalizing ds with
  | nil =>
    show ds = ds.map (chainUpdate [] now)
    have he : ds.map (chainUpdate [] now) = ds.map (fun r => r) := rfl
    rw [he, List.map_id']
  | cons p rest ih =>
    have h1 : mergeOne ds p now = ds.map (updateRecord p now) := by
      unfold mergeOne
      rw [if_pos (h p (List.mem_cons_self p rest))]
    show mergeBatch (mergeOne ds p now) rest now = _
    rw [h1, ih (ds.map (updateRecord p now)) (by
      intro q hq
      rw [hasIdent_map_updateRecord]
      exact h q (List.mem_cons_of_mem p hq))]
    rw [List.map_map]
    rfl

theorem applyMut_applyMut (q p : ClassifiedPosting) (r : DatasetRecord)
    (h : r.ident = postingIdent q) :
    applyMut q (applyMut p r) = applyMut q r := by
  by_cases hp : r.ident = postingIdent p
  · rw [applyMut_eq_of_eq p r hp, applyMut_eq_of_eq q r h,
      applyMut_eq_of_eq q
        { r with location := p.location, snippet := p.snippet, visa := p.visa } h]
  · rw [applyMut_eq_self_of_ne p r hp]

theorem chainMut_applyMut_of_match (batch : List ClassifiedPosting)
    (p : ClassifiedPosting) (r : DatasetRecord)
    (h : ∃ q ∈ batch, postingIdent q = r.ident) :
    chainMut batch (applyMut p r) = chainMut batch r := by
  induction batch generalizing p r with
  | nil => simp at h
  | cons q rest ih =>
    obtain ⟨q0, hq0m, hq0⟩ := h
    show chainMut rest (applyMut q (applyMut p r)) = chainMut rest (applyMut q r)
    by_cases hq : r.ident = postingIdent q
    · rw [applyMut_applyMut q p r hq]
    · have hql : applyMut q (applyMut p r) = applyMut p r :=
        applyMut_eq_self_of_ne q (applyMut p r)
          (by rw [applyMut_ident]; exact hq)
      have hqr : applyMut q r = r := applyMut_eq_self_of_ne q r hq
      rw [hql, hqr]
      have hq0r : q0 ∈ rest := by
        cases List.mem_cons.mp hq0m with
        | inl he => exact absurd (he ▸ hq0).symm hq
        | inr hm => exact hm
      exact ih p r ⟨q0, hq0r, hq0⟩

theorem mem_of_mem_mergeOne_no_match (ds : List DatasetRecord)
    (p : ClassifiedPosting) (now : Nat) (r : DatasetRecord)
    (hr : r ∈ mergeOne ds p now) (hne : postingIdent p ≠ r.ident) : r ∈ ds := by
  unfold mergeOne at hr
  by_cases hc : hasIdent ds (postingIdent p) = true
  · rw [if_pos hc] at hr
    obtain ⟨r0, hr0, he⟩ := List.mem_map.mp hr
    have hid : r.ident = r0.ident := by rw [← he, updateRecord_ident]
    have hne0 : r0.ident ≠ postingIdent p := fun hx => hne (hid.trans hx).symm
    rw [← he, updateRecord_eq_self_of_ne p now r0 hne0]
    exact hr0
  · rw [if_neg hc] at hr
    cases List.mem_append.mp hr with
    | inl hm => exact hm
    | inr hm =>
      exfalso
      apply hne
      rw [List.mem_singleton.mp hm]
      rfl

theorem mem_mergeBatch_no_match (batch : List ClassifiedPosting)
    (ds : List DatasetRecord) (now : Nat) (r : DatasetRecord)
    (hr : r ∈ mergeBatch ds batch now)
    (hne : ∀ q ∈ batch, postingIdent q ≠ r.ident) : r ∈ ds := by
  induction batch generalizing ds with
  | nil => exact hr
  | cons p rest ih =>
    have h1 : r ∈ mergeOne ds p now :=
      ih (mergeOne ds p now) hr (fun q hq => hne q (List.mem_cons_of_mem p hq))
    exact mem_of_mem_mergeOne_no_match ds p now r h1
      (hne p (List.mem_cons_self p rest))

theorem mergeOne_saturated (ds : List DatasetRecord) (p : ClassifiedPosting)
    (now : Nat) (r : DatasetRecord) (hr : r ∈ mergeOne ds p now)
    (hid : r.ident = postingIdent p) :
    r.location = p.location ∧ r.snippet = p.snippet ∧ r.visa = p.visa := by
  unfold mergeOne at hr
  by_cases hc : hasIdent ds (postingIdent p) = true
  · rw [if_pos hc] at hr
    obtain ⟨r0, hr0, he⟩ := List.mem_map.mp hr
    by_cases h0 : r0.ident = postingIdent p
    · rw [← he]
      unfold updateRecord
      rw [if_pos h0]
      exact ⟨rfl, rfl, rfl⟩
    · exfalso
      apply h0
      have : updateRecord p now r0 = r0 := by unfold updateRecord; rw [if_neg h0]
      rw [← this, he, hid]
  · rw [if_neg hc] at hr
    cases List.mem_append.mp hr with
    | inl hm =>
      exfalso
      unfold hasIdent at hc
      simp only [Bool.not_eq_true, List.any_eq_false, decide_eq_true_eq] at hc
      exact hc r hm hid
    | inr hm =>
      rw [List.mem_singleton.mp hm]
      exact ⟨rfl, rfl, rfl⟩

theorem applyMut_eq_self_of_saturated (p : ClassifiedPosting)
    (r : DatasetRecord)
    (h : r.ident = postingIdent p →
      r.location = p.location ∧ r.snippet = p.snippet ∧ r.visa = p.visa) :
    applyMut p r = r := by
  unfold applyMut
  by_cases hid : r.ident = postingIdent p
  · obtain ⟨h1, h2, h3⟩ := h hid
    rw [if_pos hid, ← h1, ← h2, ← h3]
  · rw [if_neg hid]

theorem chainMut_strip_mem_mergeBatch (batch : List ClassifiedPosting)
    (ds : List DatasetRecord) (now : Nat) (r : DatasetRecord)
    (hr : r ∈ mergeBatch ds batch now) :
    chainMut batch (stripLastSeen r) = stripLastSeen r := by
  induction batch generalizing ds with
  | nil => rfl
  | cons p rest ih =>
    have hih : chainMut rest (stripLastSeen r) = stripLastSeen r :=
      ih (mergeOne ds p now) hr
    show chainMut rest (applyMut p (stripLastSeen r)) = stripLastSeen r
    by_cases hex : ∃ q ∈ rest, postingIdent q = r.ident
    · rw [chainMut_applyMut_of_match rest p (stripLastSeen r)
        (by rw [stripLastSeen_ident]; exact hex)]
      exact hih
    · push_neg at hex
      have hmem : r ∈ mergeOne ds p now :=
        mem_mergeBatch_no_match rest (mergeOne ds p now) now r hr hex
      have hsat : applyMut p (stripLastSeen r) = stripLastSeen r := by
        apply applyMut_eq_self_of_saturated
        intro hid
        rw [stripLastSeen_ident] at hid
        exact mergeOne_saturated ds p now r hmem hid
      rw [hsat]
      exact hih

/-! ## Sample data for witnesses -/

/-- A concrete classified posting used by witnesses. -/
def samplePosting : ClassifiedPosting :=
  { title := "Software Engineer", company := "Acme", location := "NYC",
    snippet := "build things", postedAt := "2024-01-01",
    postUrl := "https://acme.example/jobs/1", source := "acme",
    role := "SWE", expText := "", visa := true }

/-- A second concrete classified posting with a distinct identifier. -/
def samplePosting2 : ClassifiedPosting :=
  { title := "DevOps Engineer", company := "Acme", location := "Remote",
    snippet := "run things", postedAt := "2024-01-02",
    postUrl := "https://acme.example/jobs/2", source := "acme",
    role := "DevOps", expText := "", visa := false }

/-! ## Claims about the merge (C1, C2, C3) -/

/-- C1: identifier uniqueness is an invariant of the Dataset: starting from any
dataset whose identifiers are pairwise distinct, every sequence of merge
operations (each merging a batch of classified postings at its own run time)
yields a dataset in which no two records share an identifier — a matching
identifier is merged into the existing record, never appended as a second
row. -/
theorem merge_preserves_ident_uniqueness (ds : List DatasetRecord)
    (runs : List (List ClassifiedPosting × Nat)) (h : (idents ds).Nodup) :
    (idents (mergeRuns ds runs)).Nodup := by
  induction runs generalizing ds with
  | nil => exact h
  | cons r rest ih => exact ih (mergeBatch ds r.1 r.2) (nodup_idents_mergeBatch r.1 ds r.2 h)

/-- Witness for C1: a concrete run over a dataset with one record and a batch
holding a matching and a fresh posting keeps identifiers pairwise distinct. -/
theorem merge_preserves_ident_uniqueness_witness :
    (idents [newRecord samplePosting 1]).Nodup ∧
    (idents (mergeRuns [newRecord samplePosting 1]
      [([samplePosting, samplePosting2], 2), ([samplePosting2], 3)])).Nodup :=
  ⟨by decide,
   merge_preserves_ident_uniqueness [newRecord samplePosting 1]
     [([samplePosting, samplePosting2], 2), ([samplePosting2], 3)] (by decide)⟩

/-- C2: the merge is idempotent up to last-seen timestamps: merging the same
batch a second time (at any run time) produces a dataset that is equal, after
erasing every last-seen timestamp, to the dataset obtained from merging it
once. -/
theorem mergeBatch_idempotent_up_to_lastSeen (ds : List DatasetRecord)
    (batch : List ClassifiedPosting) (t1 t2 : Nat) :
    stripAll (mergeBatch (mergeBatch ds batch t1) batch t2)
      = stripAll (mergeBatch ds batch t1) := by
  have hh : ∀ p ∈ batch,
      hasIdent (mergeBatch ds batch t1) (postingIdent p) = true :=
    fun p hp => hasIdent_mergeBatch_of_mem batch ds t1 p hp
  rw [mergeBatch_eq_map_of_hasIdent batch (mergeBatch ds batch t1) t2 hh]
  unfold stripAll
  rw [List.map_map]
  apply List.map_congr_left
  intro r hr
  show stripLastSeen (chainUpdate batch t2 r) = stripLastSeen r
  rw [stripLastSeen_chainUpdate]
  exact chainMut_strip_mem_mergeBatch batch ds t1 r hr

/-- C3: merging a posting whose identifier already occurs in the dataset
updates its last-seen timestamp and mutable fields (location, snippet, visa
flag), preserves its first-scraped timestamp and the remaining fields, leaves
unrelated records untouched, and creates no new record; merging a posting with
a fresh identifier appends a record with first-scraped = last-seen = current
run time. -/
theorem mergeOne_update_and_insert (ds : List DatasetRecord)
    (p : ClassifiedPosting) (now : Nat) :
    (hasIdent ds (postingIdent p) = true →
      (mergeOne ds p now).length = ds.length ∧
      mergeOne ds p now = ds.map (updateRecord p now) ∧
      ∀ r ∈ ds, r.ident = postingIdent p →
        (updateRecord p now r).firstScraped = r.firstScraped ∧
        (updateRecord p now r).lastSeen = now ∧
        (updateRecord p now r).location = p.location ∧
        (updateRecord p now r).snippet = p.snippet ∧
        (updateRecord p now r).visa = p.visa ∧
        (updateRecord p now r).title = r.title ∧
        (updateRecord p now r).company = r.company ∧
        (updateRecord p now r).role = r.role ∧
        (updateRecord p now r).postUrl = r.postUrl) ∧
    (hasIdent ds (postingIdent p) = false →
      mergeOne ds p now = ds ++ [newRecord p now] ∧
      (newRecord p now).firstScraped = now ∧
      (newRecord p now).lastSeen = now) ∧
    (∀ r ∈ ds, r.ident ≠ postingIdent p → updateRecord p now r = r) := by
  refine ⟨?_, ?_, ?_⟩
  · intro hc
    refine ⟨?_, ?_, ?_⟩
    · unfold mergeOne
      rw [if_pos hc, List.length_map]
    · unfold mergeOne
      rw [if_pos hc]
    · intro r hr hid
      unfold updateRecord
      rw [if_pos hid]
      exact ⟨rfl, rfl, rfl, rfl, rfl, rfl, rfl, rfl, rfl⟩
  · intro hc
    refine ⟨?_, rfl, rfl⟩
    unfold mergeOne
    rw [if_neg (by simp [hc])]
  · intro r hr hne
    exact updateRecord_eq_self_of_ne p now r hne

/-- Witness for C3: with a one-record prior dataset whose record matches the
incoming posting, the merge keeps the length at one and preserves the
first-scraped timestamp while setting last-seen to the run time. -/
theorem mergeOne_update_and_insert_witness :
    hasIdent [newRecord samplePosting 1] (postingIdent samplePosting) = true ∧
    newRecord samplePosting 1 ∈ [newRecord samplePosting 1] ∧
    (newRecord samplePosting 1).ident = postingIdent samplePosting ∧
    (mergeOne [newRecord samplePosting 1] samplePosting 5).length = 1 ∧
    (updateRecord samplePosting 5 (newRecord samplePosting 1)).firstScraped = 1 ∧
    (updateRecord samplePosting 5 (newRecord samplePosting 1)).lastSeen = 5 := by
  have h := mergeOne_update_and_insert [newRecord samplePosting 1] samplePosting 5
  have h1 := h.1 (by decide)
  have h2 := h1.2.2 (newRecord samplePosting 1) (by decide) (by decide)
  exact ⟨by decide, by decide, by decide, h1.1, by rw [h2.1]; rfl, h2.2.1⟩

/-! ## Classifier -/

/-- Whether the first list of characters starts the second one. -/
def startsChars : List Char → List Char → Bool
  | [], _ => true
  | _ :: _, [] => false
  | a :: as, b :: bs => a == b && startsChars as bs

/-- Whether the needle occurs contiguously inside the haystack. -/
def hasInfix (needle : List Char) : List Char → Bool
  | [] => startsChars needle []
  | c :: rest => startsChars needle (c :: rest) || hasInfix needle rest

/-- Lower-case a character sequence. -/
def lowerChars (cs : List Char) : List Char :=
  cs.map Char.toLower

/-- Case-insensitive substring test on strings. -/
def strContainsCI (hay needle : String) : Bool :=
  hasInfix (lowerChars needle.toList) (lowerChars hay.toList)

/-- Whether the text contains any of the configured keywords,
case-insensitively. -/
def hasKeyword (text : String) (kws : List String) : Bool :=
  kws.any (fun kw => strContainsCI text kw)

/-- Modelled from the spec: visa-sponsorship detection (spec section 4.3):
negative keywords take precedence over positive ones; absence of any keyword
yields false. -/
def checkVisaSponsorship (posKws negKws : List String) (desc : String) : Bool :=
  if hasKeyword desc negKws then false
  else hasKeyword desc posKws

/-- Whether a category keyword group matches the title, case-insensitively. -/
def groupMatches (title : String) (g : String × List String) : Bool :=
  g.2.any (fun kw => strContainsCI title kw)

/-- Modelled from the spec: role categorization (spec section 4.3): the title
is matched against an ordered list of category keyword groups and the first
matching category wins; no match yields "unclassified". -/
def categorizeRole (groups : List (String × List String)) (title : String) :
    String :=
  match groups.find? (fun g => groupMatches title g) with
  | some g => g.1
  | none => "unclassified"

/-- Digits to the natural number they denote. -/
def digitsToNat (ds : List Char) : Nat :=
  ds.foldl (fun n c => 10 * n + (c.toNat - 48)) 0

/-- Parse the leading digit run of a word, if any. -/
def leadingNat (w : List Char) : Option Nat :=
  let ds := w.takeWhile Char.isDigit
  if ds.isEmpty then none else some (digitsToNat ds)

/-- Split a character sequence into space-separated words. -/
def splitWordsAux : List Char → List Char → List (List Char)
  | [], acc => [acc.reverse]
  | c :: rest, acc =>
    if c = ' ' then acc.reverse :: splitWordsAux rest []
    else splitWordsAux rest (c :: acc)

/-- The space-separated words of a string, lower-cased. -/
def wordsOf (s : String) : List (List Char) :=
  splitWordsAux (lowerChars s.toList) []

/-- Modelled from the spec: the explicit numeric year-count requirements found
in a description (spec section 4.3): a word with a leading number immediately
followed by a word starting with "year", covering shapes such as "3+ years"
and "minimum 5 years". -/
def yearRequirements (desc : String) : List Nat :=
  let ws := wordsOf desc
  (ws.zip ws.tail).filterMap (fun pr =>
    if startsChars "year".toList pr.2 then leadingNat pr.1 else none)

/-- Modelled from the spec: the experience filter (spec section 4.3) passes a
description exactly when no explicit numeric year requirement exceeds the
configured maximum; absence of any requirement passes. -/
def experiencePass (maxYears : Nat) (desc : String) : Bool :=
  (yearRequirements desc).all (fun n => n ≤ maxYears)

/-- A raw posting, as produced by an Extractor (spec section 3). -/
structure RawPosting where
  title : String
  company : String
  location : String
  snippet : String
  postedAt : String
  postUrl : String
  source : String
deriving DecidableEq, Repr

/-- The keyword configuration of the Classifier (spec section 9 asks for it to
be an explicit value). -/
structure ClassifierConfig where
  roleGroups : List (String × List String)
  maxYears : Nat
  posKeywords : List String
  negKeywords : List String
deriving Repr

/-- Modelled from the spec: the Classifier (spec section 4.3) drops a posting
whose role is unclassified or whose experience filter fails, and otherwise
emits a ClassifiedPosting carrying the role and visa flag. -/
def classifyPosting (cfg : ClassifierConfig) (raw : RawPosting) :
    Option ClassifiedPosting :=
  let role := categorizeRole cfg.roleGroups raw.title
  if role = "unclassified" then none
  else if experiencePass cfg.maxYears raw.snippet then
    some { title := raw.title, company := raw.company,
           location := raw.location, snippet := raw.snippet,
           postedAt := raw.postedAt, postUrl := raw.postUrl,
           source := raw.source, role := role, expText := raw.snippet,
           visa := checkVisaSponsorship cfg.posKeywords cfg.negKeywords
             raw.snippet }
  else none

/-- Classify a whole run's raw postings, dropping filtered records. -/
def classifyAll (cfg : ClassifierConfig) (raws : List RawPosting) :
    List ClassifiedPosting :=
  raws.filterMap (classifyPosting cfg)

/-- A concrete classifier configuration used by witnesses, with the category
order of the repository (SDE, SWE, DevOps, Cloud, AI/ML) and a 2-year
experience cap. -/
def sampleCfg : ClassifierConfig :=
  { roleGroups :=
      [("SDE", ["software developer", "sde"]),
       ("SWE", ["software engineer", "swe"]),
       ("DevOps", ["devops"]),
       ("Cloud", ["cloud"]),
       ("AI/ML", ["machine learning", "ai/ml"])],
    maxYears := 2,
    posKeywords := ["sponsorship available", "h-1b", "visa sponsorship"],
    negKeywords := ["no sponsorship", "without sponsorship"] }

/-- A concrete raw posting used by witnesses. -/
def sampleRaw : RawPosting :=
  { title := "DevOps / Cloud Engineer", company := "Acme",
    location := "NYC", snippet := "7+ years experience",
    postedAt := "2024-01-01", postUrl := "https://acme.example/jobs/9",
    source := "acme" }

/-! ## Claims about the classifier (C4, C5, C6) -/

theorem find?_of_take {α : Type} (p : α → Bool) :
    ∀ (l : List α) (i : Nat) (h : i < l.length),
      p (l.get ⟨i, h⟩) = true →
      (∀ x ∈ l.take i, p x = false) →
      l.find? p = some (l.get ⟨i, h⟩)
  | [], i, h => by simp at h
  | a :: l, 0, h => by
    intro hp _
    exact List.find?_cons_of_pos l hp
  | a :: l, i + 1, h => by
    intro hp hpre
    have ha : p a = false := hpre a (by rw [List.take_succ_cons]; exact List.mem_cons_self a _)
    rw [List.find?_cons_of_neg _ (by rw [ha]; exact Bool.false_ne_true)]
    exact find?_of_take p l i (Nat.lt_of_succ_lt_succ h) hp
      (fun x hx => hpre x (by rw [List.take_succ_cons]; exact List.mem_cons_of_mem a hx))

theorem classifyPosting_none_of_expFail (cfg : ClassifierConfig)
    (raw : RawPosting)
    (h : experiencePass cfg.maxYears raw.snippet = false) :
    classifyPosting cfg raw = none := by
  unfold classifyPosting
  by_cases hr : categorizeRole cfg.roleGroups raw.title = "unclassified" <;>
    simp [hr, h]

/-- C4: visa-sponsorship detection returns false whenever a negative keyword is
present (negative takes precedence over positive), returns false when no
configured keyword at all is present, and returns true exactly when a positive
keyword is present and no negative keyword is. -/
theorem checkVisaSponsorship_precedence (posKws negKws : List String)
    (desc : String) :
    (hasKeyword desc negKws = true →
      checkVisaSponsorship posKws negKws desc = false) ∧
    (hasKeyword desc posKws = false → hasKeyword desc negKws = false →
      checkVisaSponsorship posKws negKws desc = false) ∧
    (checkVisaSponsorship posKws negKws desc = true ↔
      hasKeyword desc posKws = true ∧ hasKeyword desc negKws = false) := by
  unfold checkVisaSponsorship
  by_cases h : hasKeyword desc negKws = true
  · rw [if_pos h]
    refine ⟨fun _ => rfl, fun _ _ => rfl, ?_⟩
    constructor
    · intro hx
      exact absurd hx Bool.false_ne_true
    · rintro ⟨-, hneg⟩
      rw [h] at hneg
      exact Bool.noConfusion hneg
  · rw [if_neg h]
    have hf : hasKeyword desc negKws = false := by simpa using h
    exact ⟨fun hx => absurd hx h, fun hp _ => hp,
      ⟨fun hp => ⟨hp, hf⟩, fun hx => hx.1⟩⟩

/-- Witness for C4: the spec's example — a description containing both the
positive keyword "sponsorship available" and the negative keyword
"no sponsorship" yields a false visa flag. -/
theorem checkVisaSponsorship_precedence_witness :
    hasKeyword "Sponsorship available, but no sponsorship for this role"
      ["no sponsorship", "without sponsorship"] = true ∧
    hasKeyword "Sponsorship available, but no sponsorship for this role"
      ["sponsorship available", "h-1b", "visa sponsorship"] = true ∧
    checkVisaSponsorship ["sponsorship available", "h-1b", "visa sponsorship"]
      ["no sponsorship", "without sponsorship"]
      "Sponsorship available, but no sponsorship for this role" = false :=
  ⟨by decide, by decide,
   (checkVisaSponsorship_precedence
     ["sponsorship available", "h-1b", "visa sponsorship"]
     ["no sponsorship", "without sponsorship"]
     "Sponsorship available, but no sponsorship for this role").1 (by decide)⟩

/-- C5: role categorization matches the title case-insensitively against the
ordered category keyword groups and the first matching category wins; a title
matching no group yields "unclassified", and an unclassified record is dropped
from the pipeline output. -/
theorem categorizeRole_first_match (groups : List (String × List String))
    (title : String) (cfg : ClassifierConfig) (raw : RawPosting) :
    (∀ i : Fin groups.length, groupMatches title (groups.get i) = true →
      (∀ g ∈ groups.take i.1, groupMatches title g = false) →
      categorizeRole groups title = (groups.get i).1) ∧
    ((∀ g ∈ groups, groupMatches title g = false) →
      categorizeRole groups title = "unclassified") ∧
    (categorizeRole cfg.roleGroups raw.title = "unclassified" →
      classifyPosting cfg raw = none) := by
  refine ⟨?_, ?_, ?_⟩
  · intro i hm hpre
    unfold categorizeRole
    rw [find?_of_take (fun g => groupMatches title g) groups i.1 i.2 hm hpre]
  · intro hall
    unfold categorizeRole
    rw [List.find?_eq_none.mpr (fun g hg => by rw [hall g hg]; exact Bool.false_ne_true)]
  · intro hr
    unfold classifyPosting
    rw [if_pos hr]

/-- Witness for C5: the spec's example — the title "DevOps / Cloud Engineer"
with groups ordered SDE, SWE, DevOps, Cloud, AI/ML classifies as "DevOps", and
a title matching no group is dropped. -/
theorem categorizeRole_first_match_witness :
    groupMatches "DevOps / Cloud Engineer" ("DevOps", ["devops"]) = true ∧
    groupMatches "DevOps / Cloud Engineer" ("Cloud", ["cloud"]) = true ∧
    categorizeRole sampleCfg.roleGroups "DevOps / Cloud Engineer" = "DevOps" ∧
    classifyPosting sampleCfg { sampleRaw with title := "Sales Manager" } = none := by
  refine ⟨by decide, by decide, ?_, ?_⟩
  · exact (categorizeRole_first_match sampleCfg.roleGroups
      "DevOps / Cloud Engineer" sampleCfg sampleRaw).1 ⟨2, by decide⟩
      (by decide) (by decide)
  · exact (categorizeRole_first_match sampleCfg.roleGroups
      "Sales Manager" sampleCfg { sampleRaw with title := "Sales Manager" }).2.2
      (by decide)

/-- C6: the experience filter fails exactly when some explicit numeric
year-count requirement in the description exceeds the configured maximum, a
description with no explicit requirement passes, a failing posting is dropped
by the Classifier, and a batch of failing postings leaves the dataset
unchanged — such postings never appear in it. -/
theorem experienceFilter_drop (maxY : Nat) (desc : String)
    (cfg : ClassifierConfig) (raw : RawPosting) :
    (experiencePass maxY desc = false ↔
      ∃ n ∈ yearRequirements desc, maxY < n) ∧
    (yearRequirements desc = [] → experiencePass maxY desc = true) ∧
    (experiencePass cfg.maxYears raw.snippet = false →
      classifyPosting cfg raw = none) ∧
    (∀ (ds : List DatasetRecord) (now : Nat) (raws : List RawPosting),
      (∀ r ∈ raws, experiencePass cfg.maxYears r.snippet = false) →
      mergeBatch ds (classifyAll cfg raws) now = ds) := by
  refine ⟨?_, ?_, ?_, ?_⟩
  · unfold experiencePass
    simp [List.all_eq_true, Nat.not_le]
  · intro h
    unfold experiencePass
    rw [h]
    rfl
  · exact classifyPosting_none_of_expFail cfg raw
  · intro ds now raws hall
    have hcl : classifyAll cfg raws = [] := by
      unfold classifyAll
      rw [List.filterMap_eq_nil_iff]
      intro r hr
      exact classifyPosting_none_of_expFail cfg r (hall r hr)
    rw [hcl]
    rfl

/-- Witness for C6: the spec's example — a description "7+ years experience"
with a configured maximum of 2 years fails the filter, the posting is dropped,
and merging the (empty) classified batch leaves the dataset unchanged. -/
theorem experienceFilter_drop_witness :
    experiencePass 2 "7+ years experience" = false ∧
    (∃ n ∈ yearRequirements "7+ years experience", 2 < n) ∧
    classifyPosting sampleCfg sampleRaw = none ∧
    mergeBatch [newRecord samplePosting 1] (classifyAll sampleCfg [sampleRaw]) 5
      = [newRecord samplePosting 1] := by
  have h := experienceFilter_drop 2 "7+ years experience" sampleCfg sampleRaw
  exact ⟨by decide, h.1.mp (by decide), h.2.2.1 (by decide),
    h.2.2.2 [newRecord samplePosting 1] 5 [sampleRaw] (by decide)⟩

/-! ## Orchestrator (C7) -/

/-- Modelled from the spec: the overall status a run reports (spec section 6):
success when all sources succeeded, partial success when only some did, total
failure otherwise. -/
inductive RunStatus where
  | success
  | partialSuccess
  | totalFailure
deriving DecidableEq, Repr

/-- Modelled from the spec: the observed outcome of one source's Fetcher plus
Extractor during a run — either its raw postings or a failure. -/
structure SourceRun where
  name : String
  fetched : Except String (List RawPosting)

/-- Whether a source's fetch/extract outcome succeeded. -/
def isOk : Except String (List RawPosting) → Bool
  | Except.ok _ => true
  | Except.error _ => false

/-- The union, in source order, of the raw postings of successful sources. -/
def successfulPostings (sources : List SourceRun) : List RawPosting :=
  (sources.filterMap (fun s =>
    match s.fetched with
    | Except.ok raws => some raws
    | Except.error _ => none)).flatten

/-- The number of failed sources in a run. -/
def failedCount (sources : List SourceRun) : Nat :=
  (sources.filter (fun s => !(isOk s.fetched))).length

/-- Modelled from the spec: the Orchestrator (spec sections 4.5 and 6): failed
sources are skipped, the classified records of the successful sources are
merged once into the prior dataset, and the run reports total failure only
when every source failed, success when none did, and partial success
otherwise. -/
def runPipeline (cfg : ClassifierConfig) (prior : List DatasetRecord)
    (sources : List SourceRun) (now : Nat) : List DatasetRecord × RunStatus :=
  let ds := mergeBatch prior (classifyAll cfg (successfulPostings sources)) now
  let status :=
    if failedCount sources = sources.length ∧ sources.length ≠ 0 then
      RunStatus.totalFailure
    else if failedCount sources = 0 then RunStatus.success
    else RunStatus.partialSuccess
  (ds, status)

theorem length_filter_ne_of_exists {α : Type} (p : α → Bool) :
    ∀ l : List α, (∃ x ∈ l, p x = false) → (l.filter p).length ≠ l.length
  | [], h => by simp at h
  | a :: l, h => by
    rcases h with ⟨x, hx, hpx⟩
    cases List.mem_cons.mp hx with
    | inl he =>
      subst he
      rw [List.filter_cons_of_neg (by rw [hpx]; exact Bool.false_ne_true)]
      exact Nat.ne_of_lt (Nat.lt_succ_of_le (List.length_filter_le p l))
    | inr hm =>
      by_cases hpa : p a = true
      · rw [List.filter_cons_of_pos hpa]
        intro hc
        exact length_filter_ne_of_exists p l ⟨x, hm, hpx⟩
          (Nat.succ_injective hc)
      · rw [List.filter_cons_of_neg hpa]
        exact Nat.ne_of_lt (Nat.lt_succ_of_le (List.length_filter_le p l))

theorem failedCount_ne_zero (sources : List SourceRun)
    (h : ∃ s ∈ sources, isOk s.fetched = false) : failedCount sources ≠ 0 := by
  rcases h with ⟨s, hs, hf⟩
  unfold failedCount
  have hmem : s ∈ sources.filter (fun s => !(isOk s.fetched)) :=
    List.mem_filter.mpr ⟨hs, by simp [hf]⟩
  exact Nat.pos_iff_ne_zero.mp (List.length_pos.mpr (List.ne_nil_of_mem hmem))

theorem failedCount_ne_length (sources : List SourceRun)
    (h : ∃ s ∈ sources, isOk s.fetched = true) :
    failedCount sources ≠ sources.length := by
  rcases h with ⟨s, hs, hok⟩
  exact length_filter_ne_of_exists (fun s => !(isOk s.fetched)) sources
    ⟨s, hs, by simp [hok]⟩

/-- C7: partial-failure containment — whenever some sources fail and some
succeed, the run completes with the prior dataset merged with exactly the
classified records of the successful sources, and the overall status reports
partial success rather than total failure. -/
theorem runPipeline_partial_failure (cfg : ClassifierConfig)
    (prior : List DatasetRecord) (sources : List SourceRun) (now : Nat)
    (hfail : ∃ s ∈ sources, isOk s.fetched = false)
    (hok : ∃ s ∈ sources, isOk s.fetched = true) :
    (runPipeline cfg prior sources now).1
      = mergeBatch prior (classifyAll cfg (successfulPostings sources)) now ∧
    (runPipeline cfg prior sources now).2 = RunStatus.partialSuccess := by
  have h1 : failedCount sources ≠ sources.length :=
    failedCount_ne_length sources hok
  have h2 : failedCount sources ≠ 0 := failedCount_ne_zero sources hfail
  refine ⟨rfl, ?_⟩
  show (if failedCount sources = sources.length ∧ sources.length ≠ 0 then
      RunStatus.totalFailure
    else if failedCount sources = 0 then RunStatus.success
    else RunStatus.partialSuccess) = RunStatus.partialSuccess
  rw [if_neg (fun hx => h1 hx.1), if_neg h2]

/-- A raw posting that classifies successfully, for source A. -/
def rawA : RawPosting :=
  { title := "Software Engineer", company := "Acme", location := "NYC",
    snippet := "entry level, sponsorship available",
    postedAt := "2024-01-01", postUrl := "https://acme.example/jobs/1",
    source := "A" }

/-- A raw posting that classifies successfully, for source C. -/
def rawC : RawPosting :=
  { title := "Cloud Engineer", company := "Globex", location := "Remote",
    snippet := "kubernetes", postedAt := "2024-01-02",
    postUrl := "https://globex.example/jobs/2", source := "C" }

/-- A successful source. -/
def sourceA : SourceRun := { name := "A", fetched := Except.ok [rawA] }

/-- A source whose Fetcher always fails. -/
def sourceB : SourceRun := { name := "B", fetched := Except.error "timeout" }

/-- Another successful source. -/
def sourceC : SourceRun := { name := "C", fetched := Except.ok [rawC] }

/-- Witness for C7: with sources A and C succeeding and B failing, the run
reports partial success and merges exactly A's and C's classified records. -/
theorem runPipeline_partial_failure_witness :
    (∃ s ∈ [sourceA, sourceB, sourceC], isOk s.fetched = false) ∧
    (∃ s ∈ [sourceA, sourceB, sourceC], isOk s.fetched = true) ∧
    (runPipeline sampleCfg [newRecord samplePosting 1]
      [sourceA, sourceB, sourceC] 7).2 = RunStatus.partialSuccess ∧
    (runPipeline sampleCfg [newRecord samplePosting 1]
      [sourceA, sourceB, sourceC] 7).1
      = mergeBatch [newRecord samplePosting 1]
          (classifyAll sampleCfg
            (successfulPostings [sourceA, sourceB, sourceC])) 7 := by
  have h := runPipeline_partial_failure sampleCfg [newRecord samplePosting 1]
    [sourceA, sourceB, sourceC] 7 (by decide) (by decide)
  exact ⟨by decide, by decide, h.2, h.1⟩

/-! ## Publisher columns (C8) -/

/-- Modelled from the spec: the fixed column set of the published dataset file
(spec section 6), in the README's order: identifier, title, company, location,
role category, source URL, posting timestamp, experience-requirement text,
visa-sponsorship flag, description snippet, first-scraped timestamp. -/
def headerRow : List String :=
  ["id", "title", "company", "location", "role", "post_url", "posted_at",
   "experience_text", "visa_sponsorship", "snippet", "scraped_at"]

/-- Python-style rendering of a boolean CSV cell. -/
def boolCell (b : Bool) : String := if b then "True" else "False"

/-- Modelled from the spec: one row per DatasetRecord, fields in header order;
scraped_at carries the first-scraped timestamp. -/
def recordToRow (r : DatasetRecord) : List String :=
  [r.ident, r.title, r.company, r.location, r.role, r.postUrl, r.postedAt,
   r.expText, boolCell r.visa, r.snippet, toString r.firstScraped]

/-- Modelled from the spec: the published flat tabular file — a header row
followed by one row per DatasetRecord. -/
def publishCsv (ds : List DatasetRecord) : List (List String) :=
  headerRow :: ds.map recordToRow

/-- The columns the browsing client reads, from frontend/src/App.jsx: id,
title, company, location, role, post_url, posted_at, visa_sponsorship,
snippet, scraped_at. -/
def clientColumns : List String :=
  ["id", "title", "company", "location", "role", "post_url", "posted_at",
   "visa_sponsorship", "snippet", "scraped_at"]

/-- C8: the published dataset is flat tabular with a header row, one row per
DatasetRecord, every row as wide as the fixed column set, and every column the
browsing client reads is among the published columns. -/
theorem publishCsv_columns (ds : List DatasetRecord) :
    (publishCsv ds).head? = some headerRow ∧
    (publishCsv ds).length = ds.length + 1 ∧
    (∀ r : DatasetRecord, (recordToRow r).length = headerRow.length) ∧
    (∀ c ∈ clientColumns, c ∈ headerRow) := by
  refine ⟨rfl, ?_, fun r => rfl, by decide⟩
  unfold publishCsv
  rw [List.length_cons, List.length_map]

/-- Witness for C8: each client column is a published column, checked on the
concrete lists. -/
theorem publishCsv_columns_witness :
    "visa_sponsorship" ∈ clientColumns ∧
    (publishCsv [newRecord samplePosting 1]).length = 2 ∧
    (∀ c ∈ clientColumns, c ∈ headerRow) := by
  have h := publishCsv_columns [newRecord samplePosting 1]
  exact ⟨by decide, h.2.1, h.2.2.2⟩

/-! ## Frontend: job rows and the visa filter (C10), from App.jsx -/

/-- A JavaScript value as it occurs in the visa_sponsorship cell: PapaParse
yields strings, while the code also compares against the boolean true. -/
inductive JsValue where
  | str : String → JsValue
  | bool : Bool → JsValue
deriving DecidableEq, Repr

/-- A job row as the browsing client reads it, from frontend/src/App.jsx. -/
structure Job where
  id : String
  title : String
  company : String
  location : String
  role : String
  post_url : String
  posted_at : String
  visa_sponsorship : JsValue
  snippet : String
  scraped_at : String
deriving DecidableEq, Repr

/-- From App.jsx: the strict visa test used both by the filter
(job.visa_sponsorship === 'True' || job.visa_sponsorship === true) and by the
job card's sponsorship badge. -/
def visaPass (v : JsValue) : Bool :=
  v == JsValue.str "True" || v == JsValue.bool true

/-- From App.jsx: the visa-sponsorship step of the job filter — applied only
when the visa-sponsorship-only toggle is on. -/
def visaFilter (visaOnly : Bool) (jobs : List Job) : List Job :=
  if visaOnly then jobs.filter (fun j => visaPass j.visa_sponsorship)
  else jobs

/-- From App.jsx: the sponsorship label rendered on a job card. -/
def sponsorshipLabel (v : JsValue) : String :=
  if visaPass v then "Visa Sponsorship" else "No sponsorship info"

/-- C10: with the visa-sponsorship-only toggle on, a job is kept exactly when
its visa_sponsorship cell is the string "True" or the boolean true; the
representations "true", "TRUE" and "yes" are excluded and rendered as having
no sponsorship info. -/
theorem visaFilter_exact_True (jobs : List Job) (j : Job) :
    (j ∈ visaFilter true jobs ↔
      j ∈ jobs ∧ (j.visa_sponsorship = JsValue.str "True" ∨
        j.visa_sponsorship = JsValue.bool true)) ∧
    visaPass (JsValue.str "true") = false ∧
    visaPass (JsValue.str "TRUE") = false ∧
    visaPass (JsValue.str "yes") = false ∧
    sponsorshipLabel (JsValue.str "true") = "No sponsorship info" ∧
    sponsorshipLabel (JsValue.str "TRUE") = "No sponsorship info" ∧
    sponsorshipLabel (JsValue.str "yes") = "No sponsorship info" ∧
    visaPass (JsValue.str "True") = true ∧
    visaPass (JsValue.bool true) = true ∧
    sponsorshipLabel (JsValue.str "True") = "Visa Sponsorship" := by
  refine ⟨?_, by decide, by decide, by decide, by decide, by decide,
    by decide, by decide, by decide, by decide⟩
  show j ∈ jobs.filter (fun j => visaPass j.visa_sponsorship) ↔ _
  rw [List.mem_filter]
  unfold visaPass
  simp

/-- A job row whose visa cell is exactly the string "True". -/
def sampleTrueJob : Job :=
  { id := "1", title := "t", company := "c", location := "l", role := "SWE",
    post_url := "u", posted_at := "p",
    visa_sponsorship := JsValue.str "True", snippet := "s",
    scraped_at := "a" }

/-- Witness for C10: the filter keeps the job whose cell is exactly "True" and
labels a lowercase "true" cell as having no sponsorship info. -/
theorem visaFilter_exact_True_witness :
    sponsorshipLabel (JsValue.str "true") = "No sponsorship info" ∧
    visaPass (JsValue.str "True") = true ∧
    sampleTrueJob ∈ visaFilter true [sampleTrueJob] :=
  ⟨(visaFilter_exact_True [sampleTrueJob] sampleTrueJob).2.2.2.2.1,
   (visaFilter_exact_True [sampleTrueJob] sampleTrueJob).2.2.2.2.2.2.2.1,
   (visaFilter_exact_True [sampleTrueJob] sampleTrueJob).1.mpr
     (by exact ⟨List.mem_singleton.mpr rfl, Or.inl rfl⟩)⟩

/-! ## Frontend: the applications hook (C9), from the useApplications source -/

/-- An application entry as built by addApplication in the useApplications
hook. -/
structure Application where
  id : String
  jobId : String
  title : String
  company : String
  location : String
  role : String
  postUrl : String
  applied : Bool
  appliedAt : String
  status : String
deriving DecidableEq, Repr

/-- From the useApplications hook: the entry addApplication builds from the
job and the applied flag; appliedAt is the current time, status mirrors the
flag. -/
def mkApplication (job : Job) (applied : Bool) (appliedAt : String) :
    Application :=
  { id := job.id, jobId := job.id, title := job.title, company := job.company,
    location := job.location, role := job.role, postUrl := job.post_url,
    applied := applied, appliedAt := appliedAt,
    status := if applied then "applied" else "not_applied" }

/-- From the useApplications hook: addApplication first removes any existing
entry for the job's id and then appends the new entry. -/
def addApplication (job : Job) (applied : Bool) (appliedAt : String)
    (apps : List Application) : List Application :=
  (apps.filter (fun a => a.jobId != job.id))
    ++ [mkApplication job applied appliedAt]

/-- From the useApplications hook: removeApplication drops every entry for the
given job id. -/
def removeApplication (jobId : String) (apps : List Application) :
    List Application :=
  apps.filter (fun a => a.jobId != jobId)

/-- From the useApplications hook: the applications state starts empty. -/
def initialApplications : List Application := []

/-- The job ids of the applications list, in order. -/
def appJobIds (apps : List Application) : List String :=
  apps.map (fun a => a.jobId)

theorem appJobIds_append (l1 l2 : List Application) :
    appJobIds (l1 ++ l2) = appJobIds l1 ++ appJobIds l2 := by
  unfold appJobIds
  rw [List.map_append]

/-- C9: the applications list never holds two entries with the same jobId:
after addApplication exactly one entry for the job's id exists, and
addApplication, removeApplication and the initial empty state all preserve
distinctness of the jobIds. -/
theorem useApplications_unique_jobId (job : Job) (applied : Bool)
    (ts : String) (apps : List Application) (k : String) :
    ((addApplication job applied ts apps).filter
        (fun a => a.jobId == job.id)).length = 1 ∧
    ((appJobIds apps).Nodup →
      (appJobIds (addApplication job applied ts apps)).Nodup) ∧
    ((appJobIds apps).Nodup →
      (appJobIds (removeApplication k apps)).Nodup) ∧
    (appJobIds initialApplications).Nodup := by
  refine ⟨?_, ?_, ?_, List.nodup_nil⟩
  · unfold addApplication
    rw [List.filter_append]
    have h1 : (apps.filter (fun a => a.jobId != job.id)).filter
        (fun a => a.jobId == job.id) = [] := by
      rw [List.filter_eq_nil_iff]
      intro a ha
      have := (List.mem_filter.mp ha).2
      simp only [bne_iff_ne, ne_eq, decide_eq_true_eq] at this
      simp [this]
    have h2 : ([mkApplication job applied ts].filter
        (fun a => a.jobId == job.id)) = [mkApplication job applied ts] := by
      rw [List.filter_eq_self]
      intro a ha
      rw [List.mem_singleton.mp ha]
      simp [mkApplication]
    rw [h1, h2]
    rfl
  · intro hnd
    unfold addApplication
    rw [appJobIds_append, List.nodup_append]
    refine ⟨?_, ?_, ?_⟩
    · unfold appJobIds
      exact List.Nodup.sublist
        (List.Sublist.map _ (List.filter_sublist apps)) hnd
    · exact List.nodup_singleton _
    · intro x hx
      obtain ⟨a, ha, hax⟩ := List.mem_map.mp hx
      have hne := (List.mem_filter.mp ha).2
      simp only [bne_iff_ne, ne_eq, decide_eq_true_eq] at hne
      intro hy
      have hm : x = job.id := by
        simp [appJobIds, mkApplication] at hy
        exact hy
      exact hne (hax.trans hm)
  · intro hnd
    unfold removeApplication appJobIds
    exact List.Nodup.sublist
      (List.Sublist.map _ (List.filter_sublist apps)) hnd

/-- A concrete job for the C9 witness. -/
def sampleJob : Job :=
  { id := "acme-1", title := "Software Engineer", company := "Acme",
    location := "NYC", role := "SWE", post_url := "https://acme.example/1",
    posted_at := "2024-01-01", visa_sponsorship := JsValue.str "True",
    snippet := "build things", scraped_at := "2024-01-02" }

/-- A second concrete job with a different id. -/
def sampleJob2 : Job :=
  { sampleJob with
    id := "acme-2",
    title := "DevOps Engineer",
    role := "DevOps" }

/-- Witness for C9: starting from a one-entry list for another job and adding
an application twice for the same job leaves exactly one entry for its id, and
jobIds stay pairwise distinct. -/
theorem useApplications_unique_jobId_witness :
    (appJobIds (addApplication sampleJob true "t1"
      (addApplication sampleJob false "t0"
        [mkApplication sampleJob2 true "s0"]))).Nodup ∧
    ((addApplication sampleJob true "t1"
      (addApplication sampleJob false "t0"
        [mkApplication sampleJob2 true "s0"])).filter
        (fun a => a.jobId == sampleJob.id)).length = 1 := by
  have h := useApplications_unique_jobId sampleJob true "t1"
    (addApplication sampleJob false "t0" [mkApplication sampleJob2 true "s0"])
    "acme-2"
  exact ⟨h.2.1 (by decide), h.1⟩

end JobHunt
